import Mathlib

/-!
Verification of the `ko` session lifecycle manager (worktree / tmux binding).

The Go sources are embedded shallowly: strings are `List Char` (Go strings are
byte sequences; every string these functions inspect structurally is ASCII, and
byte lengths are computed explicitly with `byteLen`), subprocess calls become
either effect lists or oracle inputs, and `context` errors become the explicit
`CtxErr` type.  Each definition mirrors the corresponding function of the Go
source (`internal/validation/validation.go`, `internal/git/worktree.go`,
`internal/tmux/session.go`, `cmd/cleanup.go`), including Go's
`path/filepath` lexical functions (`Clean`, `Join`, `Abs`, `Base`, `Dir`)
for the Unix separator `'/'` (on Unix `FromSlash` is the identity and there
are no volume names, so those steps of the Go code are omitted).
-/

/-- Number of bytes of the UTF-8 encoding of a character, as Go's `len` counts
string bytes. -/
def charBytes (c : Char) : Nat :=
  if c.toNat < 0x80 then 1
  else if c.toNat < 0x800 then 2
  else if c.toNat < 0x10000 then 3
  else 4

/-- Go's `len(s)` for a string: the number of bytes of its UTF-8 encoding. -/
def byteLen (s : List Char) : Nat :=
  (s.map charBytes).sum

/-- Go's `strings.Split(s, sep)` for a one-character separator: all substrings
between occurrences of `sep`; always returns at least one (possibly empty)
part. -/
def goSplit (sep : Char) : List Char → List (List Char)
  | [] => [[]]
  | c :: rest =>
    if c = sep then [] :: goSplit sep rest
    else
      match goSplit sep rest with
      | p :: ps => (c :: p) :: ps
      | [] => [[c]]

/-- Go's `strings.HasSuffix(s, suffix)`. -/
def hasSuffix (suffix s : List Char) : Bool :=
  decide (suffix <:+ s)

/-- Go's `strings.HasPrefix(s, pre)`. -/
def startsWith (pre s : List Char) : Bool :=
  decide (pre <+: s)

/-- Inner loop of the element-popping step of Go's `filepath.Clean`: having
just popped `popped` from the output buffer (leaving `r`, most recent first),
keep popping while the buffer is longer than `dotdot` and the popped
character is not a separator. -/
def btLoop (dotdot : Nat) (popped : Char) (r : List Char) : List Char :=
  match r with
  | [] => []
  | c :: rest =>
    if r.length > dotdot ∧ popped ≠ '/' then btLoop dotdot c rest else r

/-- Backtracking step of Go's `filepath.Clean` for a `..` element: drop the
last path element of the output buffer (`out.w--` followed by the scan-back
loop). -/
def backtrack (out : List Char) (dotdot : Nat) : List Char :=
  match out.reverse with
  | [] => []
  | c :: rest => (btLoop dotdot c rest).reverse

/-- Main scanning loop of Go's `filepath.Clean` (Unix separator): `path` is
the unread input, `out` the output buffer, `dotdot` the limit below which
`..` may not backtrack.  Every iteration of the Go loop consumes at least one
input character, so the loop is driven by a fuel counter that any value of at
least `path.length` saturates. -/
def cleanLoop (rooted : Bool) (fuel : Nat) (path out : List Char) (dotdot : Nat) : List Char :=
  match fuel, path with
  | _, [] => out
  | 0, _ => out
  | fuel + 1, c :: rest =>
    if c = '/' then
      cleanLoop rooted fuel rest out dotdot
    else if c = '.' ∧ (rest = [] ∨ rest.head? = some '/') then
      cleanLoop rooted fuel rest out dotdot
    else if c = '.' ∧ rest.head? = some '.' ∧ (rest.tail = [] ∨ rest.tail.head? = some '/') then
      if out.length > dotdot then
        cleanLoop rooted fuel rest.tail (backtrack out dotdot) dotdot
      else if rooted = false then
        cleanLoop rooted fuel rest.tail
          ((if out.length > 0 then out ++ ['/'] else out) ++ ['.', '.'])
          (((if out.length > 0 then out ++ ['/'] else out) ++ ['.', '.']).length)
      else
        cleanLoop rooted fuel rest.tail out dotdot
    else
      cleanLoop rooted fuel (rest.dropWhile (fun x => x ≠ '/'))
        ((if (rooted = true ∧ out.length ≠ 1) ∨ (rooted = false ∧ out.length ≠ 0)
          then out ++ ['/'] else out) ++ c :: rest.takeWhile (fun x => x ≠ '/'))
        dotdot

/-- Go's `filepath.Clean` (Unix): shortest lexically equivalent path. -/
def cleanPath (path : List Char) : List Char :=
  if path = [] then ['.']
  else
    let rooted := path.head? = some '/'
    let out :=
      if rooted then cleanLoop true path.length path.tail ['/'] 1
      else cleanLoop false path.length path [] 0
    if out.length = 0 then ['.'] else out

example : cleanPath "/repo/.ko/foo".data = "/repo/.ko/foo".data := by decide
example : cleanPath "a/b/../c".data = "a/c".data := by decide
example : cleanPath "".data = ".".data := by decide
example : cleanPath ".".data = ".".data := by decide
example : cleanPath "/a//b/./c/".data = "/a/b/c".data := by decide
example : cleanPath "../../x".data = "../../x".data := by decide
example : cleanPath "/..".data = "/".data := by decide

/-! ## Name validation (`internal/validation/validation.go`, `ValidateWorktreeName`) -/

/-- The distinct rejection reasons of `ValidateWorktreeName`, one per
`fmt.Errorf` site, in source order. -/
inductive VErr
  | empty
  | tooLong
  | pathSeparator
  | dotOrDotDot
  | dotDotSubstring
  | invalidChars
  | pathComponents
  | reservedName
deriving DecidableEq, Repr

/-- Go's `strings.ContainsAny(name, "/\\")`. -/
def hasSepChar (name : List Char) : Bool :=
  name.any (fun c => c = '/' || c = '\\')

/-- Go's `strings.Contains(name, "..")`: for the ASCII pattern `".."` this is
exactly infix containment of the two-character sequence. -/
def containsDotDot (name : List Char) : Bool :=
  decide (['.', '.'] <:+: name)

/-- Go's `strings.ContainsAny(name, "\x00\n\r\t")`. -/
def hasCtrlChar (name : List Char) : Bool :=
  name.any (fun c => c = '\x00' || c = '\n' || c = '\r' || c = '\t')

/-- Uppercasing of one character; the reserved-name comparison below only ever
has to distinguish ASCII, for which Go's `strings.ToUpper` is exactly this
map. -/
def upperChar (c : Char) : Char :=
  if 'a' ≤ c ∧ c ≤ 'z' then Char.ofNat (c.toNat - 32) else c

/-- Go's `strings.ToUpper` on the name. -/
def asciiUpper (name : List Char) : List Char :=
  name.map upperChar

/-- The `reserved` slice of `ValidateWorktreeName`. -/
def reservedNames : List (List Char) :=
  ["CON".data, "PRN".data, "AUX".data, "NUL".data,
   "COM1".data, "COM2".data, "COM3".data, "COM4".data, "COM5".data,
   "COM6".data, "COM7".data, "COM8".data, "COM9".data,
   "LPT1".data, "LPT2".data, "LPT3".data, "LPT4".data, "LPT5".data,
   "LPT6".data, "LPT7".data, "LPT8".data, "LPT9".data]

/-- The loop over `reserved` comparing `upperName` against each entry. -/
def isReservedName (name : List Char) : Bool :=
  reservedNames.any (fun r => decide (asciiUpper name = r))

/-- The validator of `internal/validation/validation.go`: each `if` of the Go
function in order, returning the first applicable rejection, `none` when the
name is accepted. -/
def ValidateWorktreeName (name : List Char) : Option VErr :=
  if name = [] then some .empty
  else if 255 < byteLen name then some .tooLong
  else if hasSepChar name then some .pathSeparator
  else if name = ['.'] ∨ name = ['.', '.'] then some .dotOrDotDot
  else if containsDotDot name then some .dotDotSubstring
  else if hasCtrlChar name then some .invalidChars
  else if cleanPath name ≠ name then some .pathComponents
  else if isReservedName name then some .reservedName
  else none

example : ValidateWorktreeName "old-feature".data = none := by decide
example : ValidateWorktreeName "".data = some .empty := by decide
example : ValidateWorktreeName "a/b".data = some .pathSeparator := by decide
example : ValidateWorktreeName "..".data = some .dotOrDotDot := by decide
example : ValidateWorktreeName "a..b".data = some .dotDotSubstring := by decide
example : ValidateWorktreeName "con".data = some .reservedName := by decide
example : ValidateWorktreeName "COM7".data = some .reservedName := by decide
example : ValidateWorktreeName "a b".data = none := by decide

/-! ## Process runner and cancellation (`exec.CommandContext` wrappers) -/

/-- State of a Go `context.Context` at the time a wrapped call runs:
`ctx.Err()` is `nil`, `context.Canceled`, or `context.DeadlineExceeded`. -/
inductive CtxErr
  | none
  | canceled
  | deadlineExceeded
deriving DecidableEq, Repr

/-- Outcome of `cmd.Run()` / `cmd.CombinedOutput()` under
`exec.CommandContext`: a context that is already done prevents the command
from running (the call fails without executing the subprocess); otherwise the
subprocess outcome `spawnOk` decides. -/
def execRun (ctxErr : CtxErr) (spawnOk : Bool) : Bool :=
  match ctxErr with
  | .none => spawnOk
  | _ => false

/-- The error values `runTmuxCmdWithContext` and `sendKeysWithContext` can
produce, one constructor per `fmt.Errorf` site. -/
inductive TmuxErr
  | cancelled
  | cmdFailed (args : List (List Char))
  | sendKeysFailed (pane : Nat)
  | windowNotFound (worktreeName : List Char)
  | killFailed
  | listWindowsFailed
deriving DecidableEq, Repr

/-- Embedding of `runTmuxCmdWithContext` (`internal/tmux/session.go`): on a
failed run, an already-cancelled context is reported as `operation cancelled`,
anything else as the generic `tmux command failed (args)` error. -/
def runTmuxCmdWithContext (ctxErr : CtxErr) (spawnOk : Bool)
    (args : List (List Char)) : Option TmuxErr :=
  if execRun ctxErr spawnOk then none
  else if ctxErr = .canceled then some .cancelled
  else some (.cmdFailed args)

set_option linter.unusedVariables false in
/-- Embedding of `sendKeysWithContext` (`internal/tmux/session.go`); the key
text itself goes to the subprocess and does not influence the error flow. -/
def sendKeysWithContext (ctxErr : CtxErr) (spawnOk : Bool)
    (pane : Nat) (keys : List Char) : Option TmuxErr :=
  if execRun ctxErr spawnOk then none
  else if ctxErr = .canceled then some .cancelled
  else some (.sendKeysFailed pane)

/-! ## Git worktree wrappers (`internal/git/worktree.go`) -/

/-- One external `git` invocation, recorded with its full argument vector. -/
inductive GitEffect
  | gitExec (args : List (List Char))
deriving DecidableEq, Repr

/-- The error values of the worktree wrappers: `operation cancelled`, or the
subprocess's combined output passed through verbatim
(`fmt.Errorf("%s", string(output))`). -/
inductive GitErr
  | cancelled
  | external (output : List Char)
deriving DecidableEq, Repr

/-- The message text of a `GitErr`, as `err.Error()` would render it. -/
def gitErrMessage : GitErr → List Char
  | .cancelled => "operation cancelled".data
  | .external output => output

/-- Embedding of `CreateWorktreeWithContext`: runs
`git worktree add <path>` once, and on failure reports cancellation or the
combined output verbatim. -/
def CreateWorktreeWithContext (ctxErr : CtxErr) (spawnOk : Bool)
    (output : List Char) (path : List Char) : List GitEffect × Option GitErr :=
  ([GitEffect.gitExec ["git".data, "worktree".data, "add".data, path]],
   if execRun ctxErr spawnOk then none
   else if ctxErr = .canceled then some .cancelled
   else some (.external output))

/-- Embedding of `RemoveWorktreeWithContext`: runs
`git worktree remove --force <path>` once, with the same error policy. -/
def RemoveWorktreeWithContext (ctxErr : CtxErr) (spawnOk : Bool)
    (output : List Char) (path : List Char) : List GitEffect × Option GitErr :=
  ([GitEffect.gitExec ["git".data, "worktree".data, "remove".data, "--force".data, path]],
   if execRun ctxErr spawnOk then none
   else if ctxErr = .canceled then some .cancelled
   else some (.external output))

/-! ## Session creation (`internal/tmux/session.go`, `CreateSessionWithContext`) -/

/-- One tmux operation issued during session creation, in the order the Go
code issues them. `splitH` is `split-window -h -c path` (the side-by-side
split), `splitV` is `split-window -v -c path` (the below split); pane targets
are the numeric indices the Go code renders with `fmt.Sprintf("%d", _)`. -/
inductive TmuxOp
  | newWindow (name path : List Char)
  | splitH (path : List Char)
  | splitV (path : List Char)
  | selectPane (target : Nat)
  | sendKeys (target : Nat) (keys : List Char)
deriving DecidableEq, Repr

/-- The window name `fmt.Sprintf("%s|%s", repoName, worktreeName)`. -/
def windowNameFor (repoName worktreeName : List Char) : List Char :=
  repoName ++ '|' :: worktreeName

/-- The `for i := 1; i < numPaneCommands; i++` split loop, indexed by the
number of remaining iterations (`numPaneCommands - i`): each iteration
selects pane `paneBaseIndex + (i - 1)` and then splits below. -/
def splitLoop (b : Nat) (path : List Char) (remaining i : Nat) : List TmuxOp :=
  match remaining with
  | 0 => []
  | r + 1 =>
    TmuxOp.selectPane (b + (i - 1)) :: TmuxOp.splitV path ::
      splitLoop b path r (i + 1)

/-- The `for i, cmd := range cfg.PaneCommands` dispatch loop: command at
offset `i` goes to pane `paneBaseIndex + i + 1`. -/
def sendLoop (b i : Nat) : List (List Char) → List TmuxOp
  | [] => []
  | cmd :: rest => TmuxOp.sendKeys (b + i + 1) cmd :: sendLoop b (i + 1) rest

/-- The ordered tmux operations of the success path of
`CreateSessionWithContext`: create the window, split (side-by-side first,
then the below-split loop), send the setup script to the base pane when one
is configured, send each pane command, and focus the base pane. -/
def createSessionOps (b : Nat) (repoName worktreeName worktreePath setup : List Char)
    (cmds : List (List Char)) : List TmuxOp :=
  TmuxOp.newWindow (windowNameFor repoName worktreeName) worktreePath ::
  ((if 0 < cmds.length then
      TmuxOp.splitH worktreePath :: splitLoop b worktreePath (cmds.length - 1) 1
    else []) ++
   (if setup ≠ [] then [TmuxOp.sendKeys b setup] else []) ++
   sendLoop b 0 cmds ++
   [TmuxOp.selectPane b])

example :
    createSessionOps 0 "r".data "w".data "/p".data "./bin/setup".data
      ["a".data, "b".data, "c".data] =
    [TmuxOp.newWindow "r|w".data "/p".data,
     TmuxOp.splitH "/p".data,
     TmuxOp.selectPane 0, TmuxOp.splitV "/p".data,
     TmuxOp.selectPane 1, TmuxOp.splitV "/p".data,
     TmuxOp.sendKeys 0 "./bin/setup".data,
     TmuxOp.sendKeys 1 "a".data, TmuxOp.sendKeys 2 "b".data, TmuxOp.sendKeys 3 "c".data,
     TmuxOp.selectPane 0] := by decide

/-! ## Window discovery (`CloseWindow` in `internal/tmux/session.go`) -/

/-- The search loop of `CloseWindow` over the lines of
`tmux list-windows -F "#{window_index}:#{window_name}"`: the first line whose
text ends with `"|" + worktreeName` yields its text before the first `:` as
the window index; no match yields the empty string. -/
def searchLines (worktreeName : List Char) : List (List Char) → List Char
  | [] => []
  | line :: rest =>
    if hasSuffix ('|' :: worktreeName) line then
      match goSplit ':' line with
      | p :: _ => p
      | [] => searchLines worktreeName rest
    else searchLines worktreeName rest

/-- `CloseWindow`'s window lookup on the raw `list-windows` output: split on
newlines, then run the search loop. -/
def windowIndexInOutput (worktreeName raw : List Char) : List Char :=
  searchLines worktreeName (goSplit '\n' raw)

example : windowIndexInOutput "w".data "1:other\n4:r|w\n".data = "4".data := by decide
example : windowIndexInOutput "w".data "1:other\n".data = [] := by decide

/-! ## Window teardown with pane interrupts

The `CloseWindow` exercised by `session_test.go` (`TestCloseWindowWithCtrlC`,
`TestGetPanesForWindow`, `TestSendCtrlCToPane`) enumerates the panes of the
window and interrupts each one before killing the window; that version of
`internal/tmux/session.go` (with `findWindowByWorktree`, `getPanesForWindow`
and `sendCtrlCToPane`) is not among the source files here — the checked-in
`session.go` snapshot predates it — so its teardown sequence is modelled from
the spec. -/

/-- One tmux call made during window teardown. -/
inductive CloseEffect
  | listWindows
  | listPanes (windowIndex : List Char)
  | interrupt (paneId : List Char)
  | kill (windowIndex : List Char)
deriving DecidableEq, Repr

/-- The loop sending an interrupt control sequence to each enumerated pane. -/
def interruptLoop : List (List Char) → List CloseEffect
  | [] => []
  | p :: rest => CloseEffect.interrupt p :: interruptLoop rest

/-- Modelled from the spec: `close` (§4.4) of the missing current
`CloseWindow` — find the window by the `"|" + worktreeName` suffix over the
window list (that part is the checked-in search loop embedded above as
`windowIndexInOutput`), report `NotFound` when absent, and otherwise
enumerate the window's panes, send an interrupt control sequence to each, and
only then issue the destructive kill. `panes` is the pane list the
multiplexer reports for the window. -/
def CloseWindow (raw worktreeName : List Char) (panes : List (List Char)) :
    List CloseEffect × Option TmuxErr :=
  let idx := windowIndexInOutput worktreeName raw
  if idx = [] then
    ([CloseEffect.listWindows], some (.windowNotFound worktreeName))
  else
    (CloseEffect.listWindows :: CloseEffect.listPanes idx ::
       (interruptLoop panes ++ [CloseEffect.kill idx]),
     none)

example :
    CloseWindow "2:r|w\n".data "w".data ["%0".data, "%3".data] =
    ([CloseEffect.listWindows, CloseEffect.listPanes "2".data,
      CloseEffect.interrupt "%0".data, CloseEffect.interrupt "%3".data,
      CloseEffect.kill "2".data], none) := by decide

/-! ## Filepath helpers used by the cleanup command -/

/-- Go's `filepath.Join` (Unix): skip leading empty elements, join the rest
with `/`, and clean the result; all elements empty yields the empty string. -/
def goJoin (elems : List (List Char)) : List Char :=
  match elems with
  | [] => []
  | e :: rest => if e = [] then goJoin rest else cleanPath (List.intercalate ['/'] (e :: rest))

/-- Go's `filepath.IsAbs` (Unix). -/
def isAbsPath (p : List Char) : Bool :=
  p.head? = some '/'

/-- Go's `filepath.Abs` (Unix) with the process working directory `wd` (the
value `os.Getwd` returns): absolute paths are cleaned, relative paths joined
onto `wd`. -/
def goAbs (wd p : List Char) : List Char :=
  if isAbsPath p then cleanPath p else goJoin [wd, p]

/-- Go's `filepath.Base` (Unix): strip trailing separators, then keep the
text after the last separator; all-separator input yields `/`, empty input
`.`. -/
def goBase (p : List Char) : List Char :=
  if p = [] then ['.']
  else
    let stripped := (p.reverse.dropWhile (fun c => c = '/')).reverse
    let last := (stripped.reverse.takeWhile (fun c => c ≠ '/')).reverse
    if last = [] then ['/'] else last

/-- Go's `filepath.Dir` (Unix): drop the trailing non-separator run and clean
what remains (including the separator), `.` when there is no separator. -/
def goDir (p : List Char) : List Char :=
  cleanPath ((p.reverse.dropWhile (fun c => c ≠ '/')).reverse)

example : goJoin ["/r".data, ".ko".data, "foo".data] = "/r/.ko/foo".data := by decide
example : goBase "/r/.ko/foo".data = "foo".data := by decide
example : goDir "/r/.ko/foo".data = "/r/.ko".data := by decide
example : goBase (goDir "/r/.ko/foo".data) = ".ko".data := by decide

/-! ## The cleanup command (`runCleanup`, `spawnDetachedCleanup`,
`runDetachedCleanup` in `cmd/cleanup.go`) -/

/-- The warning sites of the cleanup command (each a `fmt.Printf("Warning: ...")`). -/
inductive WarnTag
  | repoNameFailed
  | closeWindowFailed
  | worktreeMissing
  | removeFailed
deriving DecidableEq, Repr

/-- Externally visible actions of the cleanup command, in program order. -/
inductive CleanupEffect
  | closeWindowCall (windowName worktreeName : List Char)
  | sleepSeconds (n : Nat)
  | removeWorktreeCall (path : List Char)
  | spawnDetached (exe : List Char) (args : List (List Char)) (newProcessGroup : Bool)
      (stdinNil stdoutNil stderrNil : Bool)
  | warn (tag : WarnTag)
  | writeErrorLog
deriving DecidableEq, Repr

/-- The error returns of `runCleanup` and its helpers, one per `return
fmt.Errorf` site. -/
inductive CleanupErr
  | notGitRepo
  | notInWorktree
  | currentWorktreeFailed
  | notKoWorktree
  | invalidName (e : VErr)
  | getwdFailed
  | executableFailed
  | spawnFailed
  | detachedPathMissing
  | detachedRemoveFailed
deriving DecidableEq, Repr

/-- The environment one cleanup invocation runs in: command-line inputs plus
the responses of every external call the command makes (`none` models the
call failing). -/
structure CleanupEnv where
  detachedFlag : Bool
  detachedPathFlag : List Char
  args : Option (List Char)
  isGitRepo : Bool
  isInWorktree : Bool
  currentWorktreePath : Option (List Char)
  getwd : Option (List Char)
  statExists : List Char → Bool
  inTmux : Bool
  repoName : Option (List Char)
  closeWindowOk : Bool
  removeWorktreeOk : List Char → Bool
  executablePath : Option (List Char)
  startOk : Bool

/-- The in-target test of `runCleanup`:
`strings.HasPrefix(currentPath, absWorktreePath+string(filepath.Separator)) ||
currentPath == absWorktreePath`. -/
def isInTargetCheck (currentPath absWorktreePath : List Char) : Bool :=
  startsWith (absWorktreePath ++ ['/']) currentPath || decide (currentPath = absWorktreePath)

/-- Embedding of `spawnDetachedCleanup`: close the window from the parent
(failure only warns), resolve the executable, and start the detached child —
new process group (`Setpgid`), no inherited stdio, argument vector
`cleanup --detached --detached-path <absWorktreePath>`; the child is not
awaited. -/
def spawnDetachedCleanup (env : CleanupEnv) (worktreeName absWorktreePath : List Char) :
    List CleanupEffect × Option CleanupErr :=
  let repoWarn := if env.repoName = none then [CleanupEffect.warn .repoNameFailed] else []
  let repoName := (env.repoName).getD []
  let closeFx :=
    CleanupEffect.closeWindowCall (windowNameFor repoName worktreeName) worktreeName ::
      (if env.closeWindowOk then [] else [CleanupEffect.warn .closeWindowFailed])
  match env.executablePath with
  | none => (repoWarn ++ closeFx, some .executableFailed)
  | some exe =>
    let fx := repoWarn ++ closeFx ++
      [CleanupEffect.spawnDetached exe
        ["cleanup".data, "--detached".data, "--detached-path".data, absWorktreePath]
        true true true true]
    if env.startOk then (fx, none) else (fx, some .spawnFailed)

/-- Embedding of `runDetachedCleanup` (the `--detached` executor): wait, then
remove the worktree, logging failure to the fallback file. -/
def runDetachedCleanup (env : CleanupEnv) : List CleanupEffect × Option CleanupErr :=
  if env.detachedPathFlag = [] then ([], some .detachedPathMissing)
  else
    let fx := [CleanupEffect.sleepSeconds 2,
               CleanupEffect.removeWorktreeCall env.detachedPathFlag]
    if env.removeWorktreeOk env.detachedPathFlag then (fx, none)
    else (fx ++ [CleanupEffect.writeErrorLog], some .detachedRemoveFailed)

/-- The literal `".ko"` directory name used by the cleanup command. -/
def koDir : List Char := ".ko".data

/-- The argument/auto-detection phase of `runCleanup`: an explicit argument is
used as-is; otherwise the worktree name is the base name of the current
worktree path, which must sit directly under a `.ko` directory. -/
def resolveWorktreeName (env : CleanupEnv) : Except CleanupErr (List Char) :=
  match env.args with
  | some n => .ok n
  | none =>
    if env.isGitRepo = false then .error .notGitRepo
    else if env.isInWorktree = false then .error .notInWorktree
    else
      match env.currentWorktreePath with
      | none => .error .currentWorktreeFailed
      | some cur =>
        if goBase (goDir cur) ≠ koDir then .error .notKoWorktree
        else .ok (goBase cur)

/-- Embedding of `runCleanup` (`cmd/cleanup.go`, the version with detached
support): resolve and validate the name, locate the worktree at
`filepath.Join(currentDir, ".ko", name)`, and either hand off to the
detached-spawn path (when the current directory is computed to lie inside the
target worktree and a tmux session is active) or close the window, pause, and
remove the worktree — with close/remove failures reported as warnings
only. -/
def runCleanup (env : CleanupEnv) : List CleanupEffect × Option CleanupErr :=
  if env.detachedFlag then runDetachedCleanup env
  else
    match resolveWorktreeName env with
    | .error e => ([], some e)
    | .ok worktreeName =>
      match ValidateWorktreeName worktreeName with
      | some e => ([], some (.invalidName e))
      | none =>
        match env.getwd with
        | none => ([], some .getwdFailed)
        | some currentDir =>
          if env.isGitRepo = false then ([], some .notGitRepo)
          else
            let worktreePath := goJoin [currentDir, koDir, worktreeName]
            let worktreeExists := env.statExists worktreePath
            let missFx := if worktreeExists then [] else [CleanupEffect.warn .worktreeMissing]
            let currentPath := goAbs currentDir currentDir
            let absWorktreePath := goAbs currentDir worktreePath
            if isInTargetCheck currentPath absWorktreePath ∧ env.inTmux then
              let spawned := spawnDetachedCleanup env worktreeName absWorktreePath
              (missFx ++ spawned.1, spawned.2)
            else
              let repoWarn :=
                if env.inTmux ∧ env.repoName = none then [CleanupEffect.warn .repoNameFailed]
                else []
              let closeFx :=
                if env.inTmux then
                  CleanupEffect.closeWindowCall
                      (windowNameFor ((env.repoName).getD []) worktreeName) worktreeName ::
                    (if env.closeWindowOk then [] else [CleanupEffect.warn .closeWindowFailed])
                else []
              let tmuxClosed := env.inTmux ∧ env.closeWindowOk
              let sleepFx := if tmuxClosed then [CleanupEffect.sleepSeconds 1] else []
              let removeFx :=
                if worktreeExists then
                  CleanupEffect.removeWorktreeCall worktreePath ::
                    (if env.removeWorktreeOk worktreePath then []
                     else [CleanupEffect.warn .removeFailed])
                else []
              (missFx ++ repoWarn ++ closeFx ++ sleepFx ++ removeFx, none)

/-- The environment of the scenario in which cleanup runs from inside the
worktree it is asked to remove: the current directory is the worktree
`/r/.ko/foo` itself, a tmux session is active, the window `r|foo` is open,
and every external call would succeed. -/
def envInsideWorktree : CleanupEnv where
  detachedFlag := false
  detachedPathFlag := []
  args := some "foo".data
  isGitRepo := true
  isInWorktree := true
  currentWorktreePath := some "/r/.ko/foo".data
  getwd := some "/r/.ko/foo".data
  statExists := fun p => decide (p = "/r/.ko/foo".data)
  inTmux := true
  repoName := some "r".data
  closeWindowOk := true
  removeWorktreeOk := fun _ => true
  executablePath := some "/usr/local/bin/ko".data
  startOk := true

/-- Which cleanup effects are detached-process spawns. -/
def isSpawnEffect : CleanupEffect → Bool
  | .spawnDetached _ _ _ _ _ _ => true
  | _ => false

/-- Which cleanup effects are worktree removals. -/
def isRemoveEffect : CleanupEffect → Bool
  | .removeWorktreeCall _ => true
  | _ => false

example : (runCleanup envInsideWorktree).2 = none := by decide
example : ((runCleanup envInsideWorktree).1.filter isSpawnEffect) = [] := by decide
example :
    isInTargetCheck (goAbs "/r/.ko/foo".data "/r/.ko/foo".data)
      (goAbs "/r/.ko/foo".data (goJoin ["/r/.ko/foo".data, ".ko".data, "foo".data])) = false := by
  decide

/-! ## Character class of the acceptance set -/

/-- The character class `[A-Za-z0-9_-]` of the acceptance set in §8 of the
spec. -/
def isNameChar (c : Char) : Bool :=
  decide (('A' ≤ c ∧ c ≤ 'Z') ∨ ('a' ≤ c ∧ c ≤ 'z') ∨ ('0' ≤ c ∧ c ≤ '9') ∨ c = '_' ∨ c = '-')

/-- Newline-terminated lines, as `tmux list-windows` prints them. -/
def joinLines (lines : List (List Char)) : List Char :=
  (lines.map (fun l => l ++ ['\n'])).flatten

/-- Classification of split operations. -/
def isSplitOp : TmuxOp → Bool
  | .splitH _ => true
  | .splitV _ => true
  | _ => false

/-- Classification of layout operations (splits and pane selections). -/
def isLayoutOp : TmuxOp → Bool
  | .splitH _ => true
  | .splitV _ => true
  | .selectPane _ => true
  | _ => false

/-- Classification of key-dispatch operations. -/
def isSendOp : TmuxOp → Bool
  | .sendKeys _ _ => true
  | _ => false

/-- A cleanup environment in which the window close and the worktree removal
both fail while every precondition holds. -/
def envWarnCase : CleanupEnv where
  detachedFlag := false
  detachedPathFlag := []
  args := some "feat".data
  isGitRepo := true
  isInWorktree := false
  currentWorktreePath := none
  getwd := some "/repo".data
  statExists := fun _ => true
  inTmux := true
  repoName := some "repo".data
  closeWindowOk := false
  removeWorktreeOk := fun _ => false
  executablePath := some "/usr/local/bin/ko".data
  startOk := true

/-! ## Theorems -/

/-- C10: `ValidateWorktreeName` rejects the input `.` with an error, although
`.` contains no path separator, no `..` substring, no control character, is
within the length limit, is not a reserved device name, and is unchanged by
`filepath.Clean`. -/
theorem validate_rejects_single_dot :
    ValidateWorktreeName ['.'] = some VErr.dotOrDotDot ∧
    hasSepChar ['.'] = false ∧
    containsDotDot ['.'] = false ∧
    hasCtrlChar ['.'] = false ∧
    byteLen ['.'] ≤ 255 ∧
    isReservedName ['.'] = false ∧
    cleanPath ['.'] = ['.'] := by
  decide

/-- C5 counterexample: `CON` is non-empty, consists only of `[A-Za-z0-9_-]`
characters and is at most 255 bytes long, yet `ValidateWorktreeName` rejects
it (as a reserved device name), so the claim's acceptance clause fails at
`CON`. -/
theorem validate_reserved_charset_counterexample :
    "CON".data.all isNameChar = true ∧
    "CON".data ≠ [] ∧
    byteLen "CON".data ≤ 255 ∧
    ValidateWorktreeName "CON".data = some VErr.reservedName := by
  decide

/-- C4 counterexample: a wrapped tmux call whose deadline expired returns
exactly the same generic command-failed error as a plain external-tool
failure (and likewise for worktree removal), so the timed-out outcome is not
distinguishable from the external-tool-failure outcome. -/
theorem timeout_conflated_counterexample :
    runTmuxCmdWithContext CtxErr.deadlineExceeded true ["kill-window".data] =
      some (TmuxErr.cmdFailed ["kill-window".data]) ∧
    runTmuxCmdWithContext CtxErr.none false ["kill-window".data] =
      some (TmuxErr.cmdFailed ["kill-window".data]) ∧
    (RemoveWorktreeWithContext CtxErr.deadlineExceeded true "busy".data "/r/.ko/x".data).2 =
      some (GitErr.external "busy".data) ∧
    (RemoveWorktreeWithContext CtxErr.none false "busy".data "/r/.ko/x".data).2 =
      some (GitErr.external "busy".data) := by
  decide

/-- C4 (amended): when a deadline expires during a wrapped subprocess call the
call returns the generic command-failed error — the same value a plain
external-tool failure produces — and only explicit cancellation is reported
with the distinct cancelled outcome. -/
theorem timeout_reports_generic_failure :
    ∀ (args : List (List Char)) (spawnOk : Bool) (output path : List Char),
      runTmuxCmdWithContext CtxErr.deadlineExceeded spawnOk args = some (TmuxErr.cmdFailed args) ∧
      runTmuxCmdWithContext CtxErr.deadlineExceeded spawnOk args =
        runTmuxCmdWithContext CtxErr.none false args ∧
      (RemoveWorktreeWithContext CtxErr.deadlineExceeded spawnOk output path).2 =
        some (GitErr.external output) ∧
      (RemoveWorktreeWithContext CtxErr.deadlineExceeded spawnOk output path).2 =
        (RemoveWorktreeWithContext CtxErr.none false output path).2 ∧
      runTmuxCmdWithContext CtxErr.canceled spawnOk args = some TmuxErr.cancelled ∧
      TmuxErr.cancelled ≠ TmuxErr.cmdFailed args := by
  intro args spawnOk output path
  refine ⟨rfl, rfl, rfl, rfl, rfl, by simp⟩

/-- C6: a context cancelled before invocation makes every wrapped subprocess
call — the tmux command runner, key dispatch, worktree creation and worktree
removal — return the cancelled-operation error, which is distinct from the
external-tool-failure errors. -/
theorem cancelled_context_returns_cancelled :
    ∀ (spawnOk : Bool) (args : List (List Char)) (pane : Nat)
      (keys output path : List Char),
      runTmuxCmdWithContext CtxErr.canceled spawnOk args = some TmuxErr.cancelled ∧
      sendKeysWithContext CtxErr.canceled spawnOk pane keys = some TmuxErr.cancelled ∧
      (CreateWorktreeWithContext CtxErr.canceled spawnOk output path).2 =
        some GitErr.cancelled ∧
      (RemoveWorktreeWithContext CtxErr.canceled spawnOk output path).2 =
        some GitErr.cancelled ∧
      TmuxErr.cancelled ≠ TmuxErr.cmdFailed args ∧
      GitErr.cancelled ≠ GitErr.external output := by
  intro spawnOk args pane keys output path
  refine ⟨rfl, rfl, rfl, rfl, by simp, by simp⟩

/-- C7: a failing worktree create or remove call whose context was not
cancelled returns the subprocess's combined output verbatim as the error
message, and each wrapper performs exactly one subprocess invocation (no
retry). -/
theorem external_failure_verbatim_no_retry :
    ∀ (ctxErr : CtxErr) (spawnOk : Bool) (output path : List Char),
      execRun ctxErr spawnOk = false →
      ctxErr ≠ CtxErr.canceled →
      (CreateWorktreeWithContext ctxErr spawnOk output path).2 =
        some (GitErr.external output) ∧
      (RemoveWorktreeWithContext ctxErr spawnOk output path).2 =
        some (GitErr.external output) ∧
      gitErrMessage (GitErr.external output) = output ∧
      (CreateWorktreeWithContext ctxErr spawnOk output path).1 =
        [GitEffect.gitExec ["git".data, "worktree".data, "add".data, path]] ∧
      (RemoveWorktreeWithContext ctxErr spawnOk output path).1 =
        [GitEffect.gitExec ["git".data, "worktree".data, "remove".data, "--force".data, path]] := by
  intro ctxErr spawnOk output path hrun hctx
  refine ⟨?_, ?_, rfl, rfl, rfl⟩ <;>
    simp [CreateWorktreeWithContext, RemoveWorktreeWithContext, hrun, hctx]

/-- Closed instance of `external_failure_verbatim_no_retry` at a concrete
failing invocation. -/
theorem external_failure_verbatim_no_retry_witness :
    execRun CtxErr.none false = false ∧
    CtxErr.none ≠ CtxErr.canceled ∧
    (CreateWorktreeWithContext CtxErr.none false "fatal: not a git repository".data
        "/r/.ko/x".data).2 = some (GitErr.external "fatal: not a git repository".data) := by
  exact ⟨by decide, by decide,
    (external_failure_verbatim_no_retry CtxErr.none false
      "fatal: not a git repository".data "/r/.ko/x".data (by decide) (by decide)).1⟩

/-- C1: evaluating `runCleanup` in the scenario the claim quantifies over —
current directory inside the target worktree (`/r/.ko/foo`), tmux active,
window open, every external call able to succeed — shows the in-target test
computes `false` (the code joins `.ko/<name>` onto the *current* directory,
which is a strict lexical extension of it), so the call takes the synchronous
path: it closes the window from this process, spawns no detached child,
issues no worktree removal (the computed path `/r/.ko/foo/.ko/foo` does not
exist), and returns success. -/
theorem cleanup_inside_worktree_detection_dead :
    isInTargetCheck (goAbs "/r/.ko/foo".data "/r/.ko/foo".data)
        (goAbs "/r/.ko/foo".data (goJoin ["/r/.ko/foo".data, ".ko".data, "foo".data])) = false ∧
    goJoin ["/r/.ko/foo".data, ".ko".data, "foo".data] = "/r/.ko/foo/.ko/foo".data ∧
    (runCleanup envInsideWorktree).2 = none ∧
    (runCleanup envInsideWorktree).1.filter isSpawnEffect = [] ∧
    (runCleanup envInsideWorktree).1.filter isRemoveEffect = [] ∧
    CleanupEffect.closeWindowCall "r|foo".data "foo".data ∈ (runCleanup envInsideWorktree).1 := by
  decide

/-- Every element the pane-interrupt loop emits is an interrupt. -/
theorem mem_interruptLoop :
    ∀ (panes : List (List Char)) (e : CloseEffect),
      e ∈ interruptLoop panes → ∃ p, e = CloseEffect.interrupt p := by
  intro panes
  induction panes with
  | nil => intro e h; simp [interruptLoop] at h
  | cons p rest ih =>
    intro e h
    simp only [interruptLoop, List.mem_cons] at h
    rcases h with h | h
    · exact ⟨p, h⟩
    · exact ih e h

/-- The interrupt loop covers every enumerated pane. -/
theorem interrupt_mem_interruptLoop :
    ∀ (panes : List (List Char)) (p : List Char),
      p ∈ panes → CloseEffect.interrupt p ∈ interruptLoop panes := by
  intro panes
  induction panes with
  | nil => intro p h; simp at h
  | cons q rest ih =>
    intro p h
    rcases List.mem_cons.mp h with h | h
    · subst h; simp [interruptLoop]
    · simp only [interruptLoop, List.mem_cons]
      exact Or.inr (ih p h)

/-- In `A ++ [x]`, an element other than `x` sits strictly before position
`A.length`. -/
theorem get_append_singleton_lt {α : Type} [DecidableEq α] :
    ∀ (A : List α) (x : α) (i : Nat) (y : α),
      (A ++ [x]).get? i = some y → y ≠ x → i < A.length := by
  intro A
  induction A with
  | nil =>
    intro x i y h hne
    cases i with
    | zero => simp at h; exact absurd h.symm hne
    | succ n => simp at h
  | cons a rest ih =>
    intro x i y h hne
    cases i with
    | zero => simp
    | succ n =>
      simp only [List.cons_append, List.get?_cons_succ] at h
      simpa using Nat.succ_lt_succ (ih x n y h hne)

/-- In `A ++ [x]` with `x` not in `A`, the position of `x` is exactly
`A.length`. -/
theorem get_append_singleton_eq {α : Type} [DecidableEq α] :
    ∀ (A : List α) (x : α) (j : Nat),
      (A ++ [x]).get? j = some x → x ∉ A → j = A.length := by
  intro A
  induction A with
  | nil =>
    intro x j h _
    cases j with
    | zero => simp
    | succ n => simp at h
  | cons a rest ih =>
    intro x j h hnm
    cases j with
    | zero =>
      simp only [List.cons_append, List.get?_cons_zero, Option.some.injEq] at h
      exact absurd (h ▸ List.mem_cons_self a rest) hnm
    | succ n =>
      simp only [List.cons_append, List.get?_cons_succ] at h
      simp [ih x n h (fun hm => hnm (List.mem_cons_of_mem a hm))]

/-- C2: on an existing window, `CloseWindow` sends an interrupt control
sequence to every enumerated pane, succeeds, and every interrupt is issued
strictly before the kill command. -/
theorem closeWindow_interrupts_before_kill :
    ∀ (raw wt : List Char) (panes : List (List Char)),
      windowIndexInOutput wt raw ≠ [] →
      (∀ p ∈ panes, CloseEffect.interrupt p ∈ (CloseWindow raw wt panes).1) ∧
      (CloseWindow raw wt panes).2 = none ∧
      (∀ (i j : Nat) (p idx : List Char),
        (CloseWindow raw wt panes).1.get? i = some (CloseEffect.interrupt p) →
        (CloseWindow raw wt panes).1.get? j = some (CloseEffect.kill idx) →
        i < j) := by
  intro raw wt panes hfound
  have hfx : (CloseWindow raw wt panes).1 =
      (CloseEffect.listWindows :: CloseEffect.listPanes (windowIndexInOutput wt raw) ::
        interruptLoop panes) ++ [CloseEffect.kill (windowIndexInOutput wt raw)] := by
    simp [CloseWindow, hfound]
  have hres : (CloseWindow raw wt panes).2 = none := by
    simp [CloseWindow, hfound]
  refine ⟨?_, hres, ?_⟩
  · intro p hp
    rw [hfx]
    exact List.mem_append_left _
      (List.mem_cons_of_mem _ (List.mem_cons_of_mem _ (interrupt_mem_interruptLoop panes p hp)))
  · intro i j p idx hi hj
    rw [hfx] at hi hj
    have hkill : CloseEffect.kill idx ∉
        (CloseEffect.listWindows :: CloseEffect.listPanes (windowIndexInOutput wt raw) ::
          interruptLoop panes) := by
      intro hmem
      rcases List.mem_cons.mp hmem with h | hmem
      · exact CloseEffect.noConfusion h
      rcases List.mem_cons.mp hmem with h | hmem
      · exact CloseEffect.noConfusion h
      · obtain ⟨q, hq⟩ := mem_interruptLoop panes _ hmem
        exact CloseEffect.noConfusion hq
    have hjk : idx = windowIndexInOutput wt raw ∨ idx ≠ windowIndexInOutput wt raw := by
      exact em _
    have hlt :
        i < (CloseEffect.listWindows :: CloseEffect.listPanes (windowIndexInOutput wt raw) ::
          interruptLoop panes).length := by
      exact get_append_singleton_lt _ _ i _ hi (by intro h; exact CloseEffect.noConfusion h)
    rcases hjk with rfl | hne
    · have hje := get_append_singleton_eq _ _ j hj hkill
      omega
    · exfalso
      have := get_append_singleton_lt _ _ j _ hj
        (by intro h; exact hne (CloseEffect.kill.inj h))
      rcases List.get?_eq_some.mp hj with ⟨hlen, hget⟩
      have hmem : CloseEffect.kill idx ∈
          (CloseEffect.listWindows :: CloseEffect.listPanes (windowIndexInOutput wt raw) ::
            interruptLoop panes) ++ [CloseEffect.kill (windowIndexInOutput wt raw)] := by
        rw [← hget]; exact List.get_mem _ _ _
      rcases List.mem_append.mp hmem with hmem | hmem
      · exact hkill hmem
      · rcases List.mem_singleton.mp hmem with h
        exact hne (CloseEffect.kill.inj h)

/-- Closed instance of `closeWindow_interrupts_before_kill` on a concrete
window list and pane set. -/
theorem closeWindow_interrupts_before_kill_witness :
    windowIndexInOutput "w".data "2:r|w\n".data ≠ [] ∧
    CloseEffect.interrupt "%0".data ∈
      (CloseWindow "2:r|w\n".data "w".data ["%0".data, "%1".data]).1 ∧
    (CloseWindow "2:r|w\n".data "w".data ["%0".data, "%1".data]).2 = none := by
  refine ⟨by decide, ?_, ?_⟩
  · exact (closeWindow_interrupts_before_kill "2:r|w\n".data "w".data
      ["%0".data, "%1".data] (by decide)).1 "%0".data (by decide)
  · exact (closeWindow_interrupts_before_kill "2:r|w\n".data "w".data
      ["%0".data, "%1".data] (by decide)).2.1

/-- Splitting at a separator that does not occur in the first part peels the
first part off. -/
theorem goSplit_append :
    ∀ (l : List Char) (sep : Char) (rest : List Char),
      sep ∉ l → goSplit sep (l ++ sep :: rest) = l :: goSplit sep rest := by
  intro l sep
  induction l with
  | nil => intro rest _; simp [goSplit]
  | cons c l' ih =>
    intro rest hmem
    have hc : c ≠ sep := fun h => hmem (h ▸ List.mem_cons_self c l')
    have hl : sep ∉ l' := fun h => hmem (List.mem_cons_of_mem c h)
    simp only [List.cons_append, goSplit, if_neg hc, List.append_eq]
    rw [ih rest hl]

/-- Splitting a string free of the separator returns it whole. -/
theorem goSplit_not_mem :
    ∀ (l : List Char) (sep : Char), sep ∉ l → goSplit sep l = [l] := by
  intro l sep
  induction l with
  | nil => intro _; simp [goSplit]
  | cons c l' ih =>
    intro hmem
    have hc : c ≠ sep := fun h => hmem (h ▸ List.mem_cons_self c l')
    have hl : sep ∉ l' := fun h => hmem (List.mem_cons_of_mem c h)
    simp only [goSplit, if_neg hc, ih hl]


/-- The search loop skips any run of non-matching lines. -/
theorem searchLines_skip :
    ∀ (wt : List Char) (pre rest : List (List Char)),
      (∀ l ∈ pre, hasSuffix ('|' :: wt) l = false) →
      searchLines wt (pre ++ rest) = searchLines wt rest := by
  intro wt pre
  induction pre with
  | nil => intro rest _; simp
  | cons l pre' ih =>
    intro rest hpre
    have hl : hasSuffix ('|' :: wt) l = false := hpre l (List.mem_cons_self l pre')
    have hp : ∀ m ∈ pre', hasSuffix ('|' :: wt) m = false :=
      fun m hm => hpre m (List.mem_cons_of_mem l hm)
    simp only [List.cons_append, searchLines, hl, Bool.false_eq_true, if_false]
    exact ih rest hp

/-- Splitting newline-terminated lines followed by a tail recovers the lines. -/
theorem goSplit_joinLines :
    ∀ (lines : List (List Char)) (tail0 : List Char),
      (∀ l ∈ lines, '\n' ∉ l) →
      goSplit '\n' (joinLines lines ++ tail0) = lines ++ goSplit '\n' tail0 := by
  intro lines
  induction lines with
  | nil => intro tail0 _; simp [joinLines]
  | cons l lines' ih =>
    intro tail0 hnl
    have hl : '\n' ∉ l := hnl l (List.mem_cons_self l lines')
    have hrest : ∀ m ∈ lines', '\n' ∉ m := fun m hm => hnl m (List.mem_cons_of_mem l hm)
    have : joinLines (l :: lines') ++ tail0 = l ++ '\n' :: (joinLines lines' ++ tail0) := by
      simp [joinLines]
    rw [this, goSplit_append l '\n' _ hl, ih tail0 hrest]
    simp

/-- C8: the window created for a `(repositoryName, worktreeName)` pair is
named `repositoryName|worktreeName` (the first operation of session creation
carries exactly that name), and the suffix search `CloseWindow` performs over
the `list-windows` output finds that window's index again, regardless of the
non-matching windows listed before it and of whatever output follows. -/
theorem window_name_roundtrip :
    ∀ (repo wt idx : List Char) (pre : List (List Char)) (tail0 : List Char)
      (b : Nat) (path setup : List Char) (cmds : List (List Char)),
      '|' ∉ repo → '|' ∉ wt → ':' ∉ idx → idx ≠ [] →
      '\n' ∉ idx → '\n' ∉ repo → '\n' ∉ wt →
      (∀ l ∈ pre, '\n' ∉ l ∧ hasSuffix ('|' :: wt) l = false) →
      windowNameFor repo wt = repo ++ '|' :: wt ∧
      (createSessionOps b repo wt path setup cmds).head? =
        some (TmuxOp.newWindow (windowNameFor repo wt) path) ∧
      windowIndexInOutput wt
        (joinLines (pre ++ [idx ++ ':' :: windowNameFor repo wt]) ++ tail0) = idx := by
  intro repo wt idx pre tail0 b path setup cmds hpr hpw hcid hne hnid hnr hnw hpre
  refine ⟨rfl, rfl, ?_⟩
  have hline : '\n' ∉ idx ++ ':' :: windowNameFor repo wt := by
    simp only [windowNameFor, List.mem_append, List.mem_cons]
    push_neg
    exact ⟨hnid, by decide, hnr, by decide, hnw⟩
  have hall : ∀ l ∈ pre ++ [idx ++ ':' :: windowNameFor repo wt], '\n' ∉ l := by
    intro l hl
    rcases List.mem_append.mp hl with h | h
    · exact (hpre l h).1
    · rw [List.mem_singleton.mp h]; exact hline
  unfold windowIndexInOutput
  rw [goSplit_joinLines _ tail0 hall, List.append_assoc,
    searchLines_skip wt pre _ (fun l hl => (hpre l hl).2)]
  have hsuf : hasSuffix ('|' :: wt) (idx ++ ':' :: windowNameFor repo wt) = true := by
    apply decide_eq_true
    refine ⟨idx ++ ':' :: repo, ?_⟩
    simp [windowNameFor]
  simp only [List.singleton_append, searchLines, hsuf, if_true]
  have hsplit : goSplit ':' (idx ++ ':' :: windowNameFor repo wt) =
      idx :: goSplit ':' (windowNameFor repo wt) := goSplit_append idx ':' _ hcid
  rw [hsplit]

/-- Closed instance of `window_name_roundtrip`: the window `repo|feature` at
index 3, listed after a non-matching window, is found by the suffix search. -/
theorem window_name_roundtrip_witness :
    windowNameFor "repo".data "feature".data = "repo|feature".data ∧
    windowIndexInOutput "feature".data
      (joinLines (["1:repo|other".data] ++ ["3:repo|feature".data]) ++ [] ) =
      "3".data := by
  have h := window_name_roundtrip "repo".data "feature".data "3".data
    ["1:repo|other".data] [] 0 "/p".data [] []
    (by decide) (by decide) (by decide) (by decide) (by decide) (by decide) (by decide)
    (by intro l hl; rw [List.mem_singleton.mp hl]; exact ⟨by decide, by decide⟩)
  refine ⟨h.1.trans (by decide), ?_⟩
  have h3 := h.2.2
  have : ("3".data ++ ':' :: windowNameFor "repo".data "feature".data) =
      "3:repo|feature".data := by decide
  rw [this] at h3
  exact h3


/-- Closed form of the split loop for start index at least 1: iteration
`i + j` selects pane `b + (i - 1) + j` and splits below it. -/
theorem splitLoop_eq_flatMap :
    ∀ (k b i : Nat) (path : List Char), 1 ≤ i →
      splitLoop b path k i =
        (List.range k).flatMap
          (fun j => [TmuxOp.selectPane (b + (i - 1) + j), TmuxOp.splitV path]) := by
  intro k
  induction k with
  | zero => intro b i path _; simp [splitLoop]
  | succ k ih =>
    intro b i path hi
    rw [List.range_succ_eq_map]
    simp only [splitLoop, List.flatMap_cons, List.flatMap_map]
    rw [ih b (i + 1) path (by omega)]
    simp only [List.cons_append, List.nil_append, Nat.add_zero, Nat.add_sub_cancel]
    congr 1
    congr 1
    apply congrArg
    funext j
    have harg : b + (i - 1) + Nat.succ j = b + i + j := by omega
    rw [harg]

/-- The split loop consists solely of layout operations. -/
theorem splitLoop_filter_layout :
    ∀ (k b i : Nat) (path : List Char),
      (splitLoop b path k i).filter isLayoutOp = splitLoop b path k i := by
  intro k
  induction k with
  | zero => intro b i path; simp [splitLoop]
  | succ k ih => intro b i path; simp [splitLoop, isLayoutOp, ih]

/-- The split loop dispatches no keys. -/
theorem splitLoop_filter_send :
    ∀ (k b i : Nat) (path : List Char),
      (splitLoop b path k i).filter isSendOp = [] := by
  intro k
  induction k with
  | zero => intro b i path; simp [splitLoop]
  | succ k ih => intro b i path; simp [splitLoop, isSendOp, ih]

/-- Closed form of the dispatch loop: the command at offset `i + j` goes to
pane `b + (i + j) + 1`. -/
theorem sendLoop_eq_zipWith :
    ∀ (cmds : List (List Char)) (b i : Nat),
      sendLoop b i cmds =
        List.zipWith (fun j c => TmuxOp.sendKeys (b + (i + j) + 1) c)
          (List.range cmds.length) cmds := by
  intro cmds
  induction cmds with
  | nil => intro b i; simp [sendLoop]
  | cons c rest ih =>
    intro b i
    rw [List.length_cons, List.range_succ_eq_map]
    simp only [sendLoop, List.zipWith_cons_cons, List.zipWith_map_left]
    rw [ih b (i + 1)]
    simp only [Nat.add_zero]
    have harg : (fun (a : Nat) (d : List Char) => TmuxOp.sendKeys (b + (i + Nat.succ a) + 1) d) =
        (fun (a : Nat) (d : List Char) => TmuxOp.sendKeys (b + (i + 1 + a) + 1) d) := by
      funext a d
      have h1 : i + Nat.succ a = i + 1 + a := by omega
      rw [h1]
    rw [harg]

/-- The dispatch loop consists solely of key dispatches. -/
theorem sendLoop_filter_send :
    ∀ (cmds : List (List Char)) (b i : Nat),
      (sendLoop b i cmds).filter isSendOp = sendLoop b i cmds := by
  intro cmds
  induction cmds with
  | nil => intro b i; simp [sendLoop]
  | cons c rest ih => intro b i; simp [sendLoop, isSendOp, ih]

/-- The dispatch loop performs no layout operation. -/
theorem sendLoop_filter_layout :
    ∀ (cmds : List (List Char)) (b i : Nat),
      (sendLoop b i cmds).filter isLayoutOp = [] := by
  intro cmds
  induction cmds with
  | nil => intro b i; simp [sendLoop]
  | cons c rest ih => intro b i; simp [sendLoop, isLayoutOp, ih]

/-- C3: for `N = 0` pane commands, session creation issues no split; for
`N ≥ 1` its layout operations are exactly an adjacent split followed, for
each `i = 1..N-1`, by selecting pane `b + (i - 1)` and splitting below, in
that strict order, ending with focus back on pane `b`; the setup command is
dispatched to pane `b` and the 0-based command `i` to pane `b + i + 1`; and
the final operation returns focus to pane `b`. -/
theorem createSession_pane_layout :
    ∀ (b : Nat) (repo wt path setup : List Char) (cmds : List (List Char)),
      (cmds.length = 0 →
        (createSessionOps b repo wt path setup cmds).filter isSplitOp = []) ∧
      (0 < cmds.length →
        (createSessionOps b repo wt path setup cmds).filter isLayoutOp =
          TmuxOp.splitH path ::
            ((List.range (cmds.length - 1)).flatMap
                (fun j => [TmuxOp.selectPane (b + j), TmuxOp.splitV path]) ++
              [TmuxOp.selectPane b])) ∧
      ((createSessionOps b repo wt path setup cmds).filter isSendOp =
        (if setup ≠ [] then [TmuxOp.sendKeys b setup] else []) ++
          List.zipWith (fun i c => TmuxOp.sendKeys (b + i + 1) c)
            (List.range cmds.length) cmds) ∧
      ((createSessionOps b repo wt path setup cmds).getLast? =
        some (TmuxOp.selectPane b)) := by
  intro b repo wt path setup cmds
  refine ⟨?_, ?_, ?_, ?_⟩
  · intro hlen
    rw [List.length_eq_zero] at hlen
    subst hlen
    by_cases hs : setup = [] <;>
      simp [createSessionOps, sendLoop, isSplitOp, hs]
  · intro hN
    have key : (createSessionOps b repo wt path setup cmds).filter isLayoutOp =
        TmuxOp.splitH path ::
          (splitLoop b path (cmds.length - 1) 1 ++ [TmuxOp.selectPane b]) := by
      by_cases hs : setup = [] <;>
        simp [createSessionOps, List.filter_append, isLayoutOp,
          splitLoop_filter_layout, sendLoop_filter_layout, hs, hN]
    rw [key, splitLoop_eq_flatMap _ _ _ _ (le_refl 1)]
    simp
  · have key : (createSessionOps b repo wt path setup cmds).filter isSendOp =
        (if setup ≠ [] then [TmuxOp.sendKeys b setup] else []) ++ sendLoop b 0 cmds := by
      by_cases hs : setup = [] <;> by_cases hN : 0 < cmds.length <;>
        simp [createSessionOps, List.filter_append, isSendOp,
          splitLoop_filter_send, sendLoop_filter_send, hs, hN]
    rw [key, sendLoop_eq_zipWith]
    simp
  · have hshape : createSessionOps b repo wt path setup cmds =
        (TmuxOp.newWindow (windowNameFor repo wt) path ::
          ((if 0 < cmds.length then
              TmuxOp.splitH path :: splitLoop b path (cmds.length - 1) 1
            else []) ++
           (if setup ≠ [] then [TmuxOp.sendKeys b setup] else []) ++
           sendLoop b 0 cmds)) ++ [TmuxOp.selectPane b] := by
      simp [createSessionOps]
    rw [hshape, List.getLast?_concat]

/-- Closed instance of `createSession_pane_layout` at base index 1 with three
pane commands. -/
theorem createSession_pane_layout_witness :
    (createSessionOps 1 "r".data "w".data "/p".data "s".data
        ["c0".data, "c1".data, "c2".data]).filter isLayoutOp =
      [TmuxOp.splitH "/p".data, TmuxOp.selectPane 1, TmuxOp.splitV "/p".data,
       TmuxOp.selectPane 2, TmuxOp.splitV "/p".data, TmuxOp.selectPane 1] := by
  have h := (createSession_pane_layout 1 "r".data "w".data "/p".data "s".data
    ["c0".data, "c1".data, "c2".data]).2.1 (by decide)
  exact h.trans (by decide)

/-- Characters of the class `[A-Za-z0-9_-]` are none of the characters the
validator's checks look for. -/
theorem isNameChar_props :
    ∀ (c : Char), isNameChar c = true →
      c ≠ '/' ∧ c ≠ '\\' ∧ c ≠ '.' ∧ c ≠ '\x00' ∧ c ≠ '\n' ∧ c ≠ '\r' ∧ c ≠ '\t' := by
  intro c h
  refine ⟨?_, ?_, ?_, ?_, ?_, ?_, ?_⟩ <;> (rintro rfl; revert h; decide)

/-- Go's `filepath.Clean` leaves a non-empty separator-free string other than
`.` and not starting with `..` unchanged. -/
theorem cleanPath_id_of_plain :
    ∀ (name : List Char), name ≠ [] → (∀ c ∈ name, c ≠ '/') →
      name ≠ ['.'] → ¬(['.', '.'] <+: name) → cleanPath name = name := by
  intro name hne hsep hdot hdd
  obtain ⟨c, rest, rfl⟩ : ∃ c rest, name = c :: rest := by
    cases name with
    | nil => exact absurd rfl hne
    | cons c rest => exact ⟨c, rest, rfl⟩
  have hc : c ≠ '/' := hsep c (List.mem_cons_self c rest)
  have hrest : ∀ x ∈ rest, x ≠ '/' := fun x hx => hsep x (List.mem_cons_of_mem c hx)
  have hcond2 : ¬(c = '.' ∧ (rest = [] ∨ rest.head? = some '/')) := by
    rintro ⟨rfl, h | h⟩
    · exact hdot (by rw [h])
    · cases rest with
      | nil => simp at h
      | cons d t =>
        simp only [List.head?_cons, Option.some.injEq] at h
        exact hrest d (List.mem_cons_self d t) h
  have hcond3 : ¬(c = '.' ∧ rest.head? = some '.' ∧
      (rest.tail = [] ∨ rest.tail.head? = some '/')) := by
    rintro ⟨rfl, h2, _⟩
    cases rest with
    | nil => simp at h2
    | cons d t =>
      simp only [List.head?_cons, Option.some.injEq] at h2
      subst h2
      exact hdd ⟨t, rfl⟩
  have htake : rest.takeWhile (fun x => x ≠ '/') = rest := by
    rw [List.takeWhile_eq_self_iff]
    intro x hx
    exact decide_eq_true (hrest x hx)
  have hdrop : rest.dropWhile (fun x => x ≠ '/') = [] := by
    rw [List.dropWhile_eq_nil_iff]
    intro x hx
    exact decide_eq_true (hrest x hx)
  have hloop : cleanLoop false (rest.length + 1) (c :: rest) [] 0 = c :: rest := by
    simp only [cleanLoop, if_neg hc, if_neg hcond2, if_neg hcond3, htake, hdrop]
    simp [cleanLoop]
  simp [cleanPath, hc, hloop]

/-- C5 (amended): a non-empty name of at most 255 bytes made only of
`[A-Za-z0-9_-]` characters that is not (case-insensitively) a reserved device
name is accepted; the empty name is rejected as empty; and any name that is
over 255 bytes, contains a path separator, contains the `..` substring,
contains a control character, or matches a reserved device name
case-insensitively is rejected. -/
theorem validate_name_spec :
    ∀ (name : List Char),
      ((∀ c ∈ name, isNameChar c = true) → name ≠ [] → byteLen name ≤ 255 →
        isReservedName name = false → ValidateWorktreeName name = none) ∧
      (name = [] → ValidateWorktreeName name = some VErr.empty) ∧
      (255 < byteLen name → (ValidateWorktreeName name).isSome = true) ∧
      (hasSepChar name = true → (ValidateWorktreeName name).isSome = true) ∧
      (containsDotDot name = true → (ValidateWorktreeName name).isSome = true) ∧
      (hasCtrlChar name = true → (ValidateWorktreeName name).isSome = true) ∧
      (isReservedName name = true → (ValidateWorktreeName name).isSome = true) := by
  intro name
  refine ⟨?_, ?_, ?_, ?_, ?_, ?_, ?_⟩
  · intro hchar hne hlen hres
    have hdotmem : '.' ∉ name := by
      intro hmem
      exact (isNameChar_props '.' (hchar '.' hmem)).2.2.1 rfl
    have hsep : ¬(hasSepChar name = true) := by
      rw [hasSepChar, List.any_eq_false.mpr]
      · simp
      · intro x hx
        have hp := isNameChar_props x (hchar x hx)
        simp [hp.1, hp.2.1]
    have hdot : ¬(name = ['.'] ∨ name = ['.', '.']) := by
      rintro (rfl | rfl) <;> exact hdotmem (by simp)
    have hdd : ¬(containsDotDot name = true) := by
      rw [containsDotDot, decide_eq_true_eq]
      intro hinf
      exact hdotmem (hinf.subset (by simp))
    have hctrl : ¬(hasCtrlChar name = true) := by
      rw [hasCtrlChar, List.any_eq_false.mpr]
      · simp
      · intro x hx
        have hp := isNameChar_props x (hchar x hx)
        simp [hp.2.2.2.1, hp.2.2.2.2.1, hp.2.2.2.2.2.1, hp.2.2.2.2.2.2]
    have hclean : cleanPath name = name := by
      apply cleanPath_id_of_plain name hne
      · intro c hc; exact (isNameChar_props c (hchar c hc)).1
      · intro h; exact hdot (Or.inl h)
      · intro hpre; exact hdotmem (hpre.subset (by simp))
    rw [ValidateWorktreeName, if_neg hne, if_neg (not_lt.mpr hlen), if_neg hsep,
      if_neg hdot, if_neg hdd, if_neg hctrl, if_neg (by simp [hclean]),
      if_neg (by simp [hres])]
  · intro h; subst h; rfl
  · intro h; rw [ValidateWorktreeName]; split_ifs <;> simp_all
  · intro h; rw [ValidateWorktreeName]; split_ifs <;> simp_all
  · intro h; rw [ValidateWorktreeName]; split_ifs <;> simp_all
  · intro h; rw [ValidateWorktreeName]; split_ifs <;> simp_all
  · intro h; rw [ValidateWorktreeName]; split_ifs <;> simp_all

set_option maxRecDepth 8000 in
/-- Closed instance of `validate_name_spec`: a 255-byte name of the
acceptance class is accepted and a 256-byte one is rejected. -/
theorem validate_name_spec_witness :
    ValidateWorktreeName (List.replicate 255 'a') = none ∧
    (ValidateWorktreeName (List.replicate 256 'a')).isSome = true := by
  constructor
  · exact (validate_name_spec (List.replicate 255 'a')).1
      (by intro c hc; rw [List.eq_of_mem_replicate hc]; decide)
      (by decide) (by decide) (by decide)
  · exact (validate_name_spec (List.replicate 256 'a')).2.2.1 (by decide)

/-- C9: once the cleanup preconditions hold (explicit valid name, inside a
git repository, working directory resolved, current directory not computed to
be inside the target worktree), `runCleanup` returns success even when
closing the tmux window fails or no window matches, and even when removing
the worktree fails — those failures only add printed warnings to the effect
trace. -/
theorem runCleanup_warns_but_succeeds :
    ∀ (env : CleanupEnv) (name cwd : List Char),
      env.detachedFlag = false →
      env.args = some name →
      ValidateWorktreeName name = none →
      env.getwd = some cwd →
      env.isGitRepo = true →
      isInTargetCheck (goAbs cwd cwd) (goAbs cwd (goJoin [cwd, koDir, name])) = false →
      (runCleanup env).2 = none ∧
      (env.inTmux = true → env.closeWindowOk = false →
        CleanupEffect.warn WarnTag.closeWindowFailed ∈ (runCleanup env).1) ∧
      (env.statExists (goJoin [cwd, koDir, name]) = true →
        env.removeWorktreeOk (goJoin [cwd, koDir, name]) = false →
        CleanupEffect.warn WarnTag.removeFailed ∈ (runCleanup env).1) := by
  intro env name cwd hdet hargs hval hwd hgit hin
  have hres : resolveWorktreeName env = Except.ok name := by
    simp [resolveWorktreeName, hargs]
  have hrun : runCleanup env =
      (let worktreePath := goJoin [cwd, koDir, name]
       let worktreeExists := env.statExists worktreePath
       let missFx := if worktreeExists then [] else [CleanupEffect.warn .worktreeMissing]
       let repoWarn :=
         if env.inTmux ∧ env.repoName = none then [CleanupEffect.warn .repoNameFailed]
         else []
       let closeFx :=
         if env.inTmux then
           CleanupEffect.closeWindowCall
               (windowNameFor ((env.repoName).getD []) name) name ::
             (if env.closeWindowOk then [] else [CleanupEffect.warn .closeWindowFailed])
         else []
       let tmuxClosed := env.inTmux ∧ env.closeWindowOk
       let sleepFx := if tmuxClosed then [CleanupEffect.sleepSeconds 1] else []
       let removeFx :=
         if worktreeExists then
           CleanupEffect.removeWorktreeCall worktreePath ::
             (if env.removeWorktreeOk worktreePath then []
              else [CleanupEffect.warn .removeFailed])
         else []
       (missFx ++ repoWarn ++ closeFx ++ sleepFx ++ removeFx, none)) := by
    rw [runCleanup, if_neg (by simp [hdet])]
    simp only [hres, hval, hwd, hgit, Bool.true_eq_false, if_false]
    rw [if_neg (by simp [hin])]
  rw [hrun]
  refine ⟨rfl, ?_, ?_⟩
  · intro hT hC
    simp [hT, hC]
  · intro hE hR
    simp [hE, hR]


/-- Closed instance of `runCleanup_warns_but_succeeds`: with a failing window
close and a failing worktree removal, cleanup still returns success and both
failures appear as warnings. -/
theorem runCleanup_warns_but_succeeds_witness :
    (runCleanup envWarnCase).2 = none ∧
    CleanupEffect.warn WarnTag.closeWindowFailed ∈ (runCleanup envWarnCase).1 ∧
    CleanupEffect.warn WarnTag.removeFailed ∈ (runCleanup envWarnCase).1 := by
  have h := runCleanup_warns_but_succeeds envWarnCase "feat".data "/repo".data
    rfl rfl (by decide) rfl rfl (by decide)
  exact ⟨h.1, h.2.1 rfl rfl, h.2.2 (by decide) (by decide)⟩
